import Mathlib

/-!
# Verification of the senbet-attendance spreadsheet-import and reporting logic

Shallow embedding of the helper functions of `src/pages/DashboardPage.jsx`:
the spreadsheet ingestor (`normalizeRows`, `matchClass`, the parsing core of
`handleExcelUpload`), the batch-commit pipeline (`commitUpload`), the
attendance-map mutators (`updateAttendanceLocal`, `removeAttendanceLocal`)
and the report builder (`buildClassReport`).

Conventions of the embedding:
* Spreadsheet cells are `String`s (the source parses with `raw:false`,
  `defval:''`, so every cell is a string, empty for blanks).
* A raw sheet row is `Option (List String)`: `some cells` for an array row,
  `none` for a non-array/absent value (the source guards with
  `Array.isArray(r) ? [...r] : []` and `(r || []).length`).
* JavaScript objects used as maps (`attendance`, per-student histories) are
  association lists in insertion order; property update keeps the position of
  an existing key and appends a new one, `delete` removes the entry, matching
  JS enumeration-order semantics.
* The hosted backend is abstracted by a rejection predicate on payload rows:
  a multi-row insert fails iff some row of the payload is rejected, a
  single-row insert fails iff that row is rejected, and every accepted row
  yields one created student (`created`).  Backend error objects are opaque
  and are not modelled; a failed-row entry keeps only its `__rowIndex`.
* `CLASS_CORRIDOR` is imported from `../data/classConfig`, which is not part
  of the sources here; every function that reads it is parameterised by the
  directory `dir : List Klass` instead.
-/

namespace Senbet

/-- A class-directory entry (`CLASS_CORRIDOR` element): identifier, label,
description. -/
structure Klass where
  id : String
  label : String
  description : String
deriving DecidableEq, Repr

/-- In-memory student shape (`mapStudentFromDb` output).  Only the fields the
claims inspect are carried; all are strings in the UI model. -/
structure Student where
  id : String
  name : String
  classId : String
deriving DecidableEq, Repr

/-- A Candidate Import Row (`parsed` element in `handleExcelUpload`):
`rowIndex` is the source's `__rowIndex` (Excel row number, header-adjusted);
`genId` stands for the `safeId(idx)` placeholder (opaque randomness modelled
by the generation index); the remaining fields are the positional cells. -/
structure PreviewRow where
  rowIndex : Nat
  genId : Nat
  rollNumber : String
  name : String
  classId : String
  age : String
  phone : String
  altPhone : String
deriving DecidableEq, Repr

/-! ## Class matching (`matchClass`) -/

/-- JS `String.prototype.includes`: `containsSub hay needle = true` iff
`needle` occurs contiguously in `hay`. -/
def containsSub (hay needle : List Char) : Bool :=
  if needle.isPrefixOf hay then true
  else
    match hay with
    | [] => false
    | _ :: t => containsSub t needle

/-- First maximal run of ASCII digits in the string, as matched by the
regular expression `/\d+/`. -/
def firstDigitRun (cs : List Char) : Option (List Char) :=
  match cs with
  | [] => none
  | c :: t => if c.isDigit then some (c :: t.takeWhile Char.isDigit) else firstDigitRun t

/-- `Number(...)` on a nonempty all-digit string. -/
def digitsToNat (ds : List Char) : Nat :=
  ds.foldl (fun acc c => 10 * acc + (c.toNat - 48)) 0

/-- `CLASS_CORRIDOR[0].id`; the source would throw on an empty directory, the
total model returns `""` there (all theorems assume a nonempty directory). -/
def dirFirstId (dir : List Klass) : String :=
  match dir with
  | [] => ""
  | k :: _ => k.id

/-- `matchClass` (DashboardPage.jsx lines 1071–1083): falsy hint ⇒ first
class; else case-insensitive substring match on labels; else first integer of
the hint as a positional index (out of range ⇒ first class); else first
class. -/
def matchClass (dir : List Klass) (value : String) : String :=
  if value = "" then dirFirstId dir
  else
    match dir.find? (fun k => containsSub value.toLower.toList k.label.toLower.toList) with
    | some k => k.id
    | none =>
      match firstDigitRun value.toLower.toList with
      | some ds =>
        match dir.get? (digitsToNat ds) with
        | some k => k.id
        | none => dirFirstId dir
      | none => dirFirstId dir

/-! ## Row normalization and parsing (`normalizeRows`, `handleExcelUpload`) -/

/-- One raw sheet row as seen by `normalizeRows`: `Array.isArray(r) ? [...r] : []`. -/
def rawCells (r : Option (List String)) : List String :=
  r.getD []

/-- `normalizeRows` (lines 152–158): pad every row with `''` up to `maxCols`
(`while (row.length < maxCols) row.push('')`). -/
def normalizeRows (rows : List (Option (List String))) (maxCols : Nat) : List (List String) :=
  rows.map (fun r =>
    let row := rawCells r
    row ++ List.replicate (maxCols - row.length) "")

/-- `aoa.reduce((m, r) => Math.max(m, (r || []).length), 0)` (line 179). -/
def maxColsOf (rows : List (Option (List String))) : Nat :=
  rows.foldl (fun m r => max m (rawCells r).length) 0

/-- The parsing core of the robust `handleExcelUpload` (lines 179–195):
normalize to the widest row, drop the header row, and map each body row
positionally to a Candidate Import Row.  `uploadClass || matchClass(row[2])`
is modelled by the emptiness test on `uploadClass`. -/
def parseRows (dir : List Klass) (uploadClass : String)
    (aoa : List (Option (List String))) : List PreviewRow :=
  let maxCols := maxColsOf aoa
  let fixed := normalizeRows aoa maxCols
  let body := fixed.drop 1
  body.enum.map (fun p =>
    { rowIndex := p.1 + 2
      genId := p.1
      rollNumber := p.2.getD 0 ""
      name := p.2.getD 1 ""
      classId := if uploadClass ≠ "" then uploadClass else matchClass dir (p.2.getD 2 "")
      age := p.2.getD 3 ""
      phone := p.2.getD 4 ""
      altPhone := p.2.getD 5 "" })

/-! ## Attendance map and its mutators -/

/-- A per-student history: JS object `date → status`, as an insertion-ordered
association list. -/
abbrev Hist := List (String × String)

/-- The attendance map: JS object `studentId → Hist`. -/
abbrev AttMap := List (String × Hist)

/-- First-occurrence lookup, the JS property read `obj[key]`
(`none` = `undefined`). -/
def alistGet {β : Type} (l : List (String × β)) (k : String) : Option β :=
  match l with
  | [] => none
  | (k', v) :: t => if k' = k then some v else alistGet t k

/-- JS property write `obj[key] = v` / spread-update `{...obj, [key]: v}`:
replaces the value at an existing key in place, appends a new key at the
end. -/
def alistSet {β : Type} (l : List (String × β)) (k : String) (v : β) :
    List (String × β) :=
  match l with
  | [] => [(k, v)]
  | (k', v') :: t => if k' = k then (k, v) :: t else (k', v') :: alistSet t k v

/-- JS `delete obj[key]`: removes the entry at the key. -/
def alistDel {β : Type} (l : List (String × β)) (k : String) :
    List (String × β) :=
  match l with
  | [] => []
  | (k', v') :: t => if k' = k then t else (k', v') :: alistDel t k

/-- `updateAttendanceLocal` (lines 1135–1139). -/
def updateAttendanceLocal (state : AttMap) (studentId date status : String) :
    AttMap :=
  let hist := (alistGet state studentId).getD []
  alistSet state studentId (alistSet hist date status)

/-- `removeAttendanceLocal` (lines 1141–1149): no history for the student ⇒
unchanged; else drop the date, and drop the student key too when the history
becomes empty. -/
def removeAttendanceLocal (state : AttMap) (studentId date : String) : AttMap :=
  match alistGet state studentId with
  | none => state
  | some hist =>
    let hist' := alistDel hist date
    if hist'.length ≠ 0 then alistSet state studentId hist'
    else alistDel state studentId

/-- Status stored for `(studentId, date)`, the composite read
`attendance[s]?.[d]`. -/
def lookupStatus (state : AttMap) (studentId date : String) : Option String :=
  ((alistGet state studentId).getD []) |> (alistGet · date)

/-- The keys of an association list. -/
def alistKeys {β : Type} (l : List (String × β)) : List String :=
  l.map Prod.fst

/-! ## Batch Commit Pipeline (`commitUpload`) -/

/-- Running totals of the upload loop: `successCount`, `failedRows` (original
`__rowIndex` of each failed row; the backend error object is opaque and not
modelled) and `insertedStudents`. -/
structure CommitOutcome where
  successCount : Nat
  failedRows : List Nat
  insertedStudents : List Student
deriving DecidableEq, Repr

/-- One iteration of the per-row fallback loop (lines 247–265): a rejected
row is recorded in `failedRows`, an accepted one bumps `successCount` and
appends the created student. -/
def rowInsert (rejects : PreviewRow → Bool) (created : PreviewRow → Student)
    (acc : CommitOutcome) (r : PreviewRow) : CommitOutcome :=
  if rejects r then
    { acc with failedRows := acc.failedRows ++ [r.rowIndex] }
  else
    { acc with
      successCount := acc.successCount + 1
      insertedStudents := acc.insertedStudents ++ [created r] }

/-- One batch (lines 234–297): try the multi-row insert — it fails iff some
row of the payload is rejected — and on failure fall back to per-row inserts
over the whole batch, in order. -/
def processBatch (rejects : PreviewRow → Bool) (created : PreviewRow → Student)
    (acc : CommitOutcome) (batch : List PreviewRow) : CommitOutcome :=
  if batch.any rejects then
    batch.foldl (rowInsert rejects created) acc
  else
    { acc with
      successCount := acc.successCount + batch.length
      insertedStudents := acc.insertedStudents ++ batch.map created }

/-- `BATCH_SIZE`-chunking (lines 223–227): successive slices of `n` rows. -/
def chunksOf {α : Type} (n : Nat) (l : List α) : List (List α) :=
  match l with
  | [] => []
  | a :: t =>
    if h : n = 0 then []
    else
      have : (a :: t).length - n < (a :: t).length :=
        Nat.sub_lt (List.length_pos.mpr (by simp)) (Nat.pos_of_ne_zero h)
      (a :: t).take n :: chunksOf n ((a :: t).drop n)
termination_by l.length
decreasing_by simpa using this

/-- The chunk loop of `commitUpload` (lines 223–297) over a given preview. -/
def commitPipeline (rejects : PreviewRow → Bool)
    (created : PreviewRow → Student) (rows : List PreviewRow) : CommitOutcome :=
  (chunksOf 50 rows).foldl (processBatch rejects created) ⟨0, [], []⟩

/-- The user-visible notice; the source's toast strings, with the interpolated
quantities kept structured. -/
inductive Toast where
  | none : Toast
  | noRows : Toast
  | loadedRows (n : Nat) : Toast
  | parseError : Toast
  | uploadedAll (succ : Nat) : Toast
  | uploadedPartial (succ : Nat) (total : Nat) (failed : Nat) : Toast
deriving DecidableEq, Repr

/-- The slice of the dashboard component state the import pipeline touches. -/
structure DashState where
  students : List Student
  uploadPreview : List PreviewRow
  activeView : String
  toast : Toast
deriving DecidableEq, Repr

/-- Lines 299–301: `if (insertedStudents.length > 0) setStudents(prev ++ inserted)`. -/
def mergedRoster (rejects : PreviewRow → Bool) (created : PreviewRow → Student)
    (st : DashState) : List Student :=
  if (commitPipeline rejects created st.uploadPreview).insertedStudents.length ≠ 0 then
    st.students ++ (commitPipeline rejects created st.uploadPreview).insertedStudents
  else st.students

/-- `commitUpload` (lines 214–312) as a state transformer: empty preview ⇒
notice only; otherwise run the chunk loop, merge any created students into
the roster, then either clear the preview (no failures) or keep it and
surface the success/failure counts. -/
def commitUpload (rejects : PreviewRow → Bool) (created : PreviewRow → Student)
    (st : DashState) : DashState :=
  if st.uploadPreview.length = 0 then { st with toast := .noRows }
  else if (commitPipeline rejects created st.uploadPreview).failedRows.length ≠ 0 then
    { st with
      students := mergedRoster rejects created st
      toast := .uploadedPartial
        (commitPipeline rejects created st.uploadPreview).successCount
        st.uploadPreview.length
        (commitPipeline rejects created st.uploadPreview).failedRows.length }
  else
    { st with
      students := mergedRoster rejects created st
      uploadPreview := []
      toast := .uploadedAll (commitPipeline rejects created st.uploadPreview).successCount }

/-- The robust `handleExcelUpload` (lines 161–208) as a state transformer.
Everything the `try` block does before `setUploadPreview` (file read, workbook
parse, sheet-to-rows) is summarised by `parseResult`; the `catch` clause only
surfaces a notice. -/
def handleExcelUpload (dir : List Klass) (uploadClass : String)
    (st : DashState) (parseResult : Except Unit (List (Option (List String)))) :
    DashState :=
  match parseResult with
  | .error _ => { st with toast := .parseError }
  | .ok aoa =>
    let parsed := parseRows dir uploadClass aoa
    { st with
      uploadPreview := parsed
      activeView := "upload"
      toast := .loadedRows parsed.length }

/-! ## Report Builder (`buildClassReport`) -/

/-- The per-status counters `{ P: 0, A: 0, PR: 0 }`. -/
structure Counts where
  P : Nat
  A : Nat
  PR : Nat
deriving DecidableEq, Repr

/-- The per-status percentages of the report. -/
structure Pcts where
  P : ℤ
  A : ℤ
  PR : ℤ
deriving DecidableEq, Repr

/-- The value returned by `buildClassReport` (lines 1201–1208). -/
structure ClassReport where
  rosterSize : Nat
  uniqueDays : Nat
  totalStudentDays : Nat
  counts : Counts
  percentages : Pcts
  absentDetails : List (Student × List String)
deriving DecidableEq, Repr

/-- JS `<` on strings: lexicographic comparison of the character sequences
(code-point order; identical to code-unit order on the ASCII dates compared
here). -/
def charListLtb : List Char → List Char → Bool
  | [], [] => false
  | [], _ :: _ => true
  | _ :: _, [] => false
  | a :: as, b :: bs =>
    if a < b then true
    else if b < a then false
    else charListLtb as bs

/-- JS string comparison `a < b`. -/
def strLtb (a b : String) : Bool :=
  charListLtb a.data b.data

/-- The date-range test of lines 1167–1171: keep a record unless a truthy
`dateFrom` exceeds its date or a truthy `dateTo` is below it (JS string
comparison = lexicographic). -/
def dateInRange (dateFrom dateTo date : String) : Bool :=
  if dateFrom ≠ "" ∧ strLtb date dateFrom then false
  else if dateTo ≠ "" ∧ strLtb dateTo date then false
  else true

/-- JS `Set.prototype.add` on an insertion-ordered, duplicate-free list. -/
def setAdd (s : List String) (d : String) : List String :=
  if d ∈ s then s else s ++ [d]

/-- `absentDetailsMap` entries: key is the student id. -/
abbrev Details := List (String × (Student × List String))

/-- Lines 1180–1181 / 1192–1193: create the student's detail entry if absent,
then push the date (pass 2 pushes only when not already present, per
`dedup`). -/
def detailsPush (dedup : Bool) (m : Details) (student : Student) (date : String) :
    Details :=
  match alistGet m student.id with
  | none => alistSet m student.id (student, [date])
  | some (s, ds) =>
    if dedup ∧ date ∈ ds then m
    else alistSet m student.id (s, ds ++ [date])

/-- Accumulator of the first roster pass. -/
structure Pass1Acc where
  counts : Counts
  dates : List String
  details : Details
deriving Repr

/-- First roster pass (lines 1165–1184): walk every stored record of the
student that passes the range filter; `P`/`PR` bump their counter, anything
else counts as absent and is logged in the detail map. -/
def pass1Student (attendance : AttMap) (dateFrom dateTo : String)
    (acc : Pass1Acc) (student : Student) : Pass1Acc :=
  let records := (alistGet attendance student.id).getD []
  let studentDates := records.filter (fun p => dateInRange dateFrom dateTo p.1)
  if studentDates.length = 0 then acc
  else
    studentDates.foldl (fun a p =>
      let a := { a with dates := setAdd a.dates p.1 }
      if p.2 = "P" then { a with counts := { a.counts with P := a.counts.P + 1 } }
      else if p.2 = "PR" then { a with counts := { a.counts with PR := a.counts.PR + 1 } }
      else
        { a with
          counts := { a.counts with A := a.counts.A + 1 }
          details := detailsPush false a.details student p.1 }) acc

/-- The truthiness test `records[date]` of line 1190: an entry exists and its
status string is non-empty. -/
def truthyRecord (records : Hist) (date : String) : Bool :=
  match alistGet records date with
  | none => false
  | some s => s ≠ ""

/-- Second roster pass (lines 1186–1196): every date already seen in range
with no (truthy) record for this student counts as a derived absence. -/
def pass2Student (attendance : AttMap) (allDatesInRange : List String)
    (acc : Counts × Details) (student : Student) : Counts × Details :=
  let records := (alistGet attendance student.id).getD []
  allDatesInRange.foldl (fun a date =>
    if truthyRecord records date then a
    else
      ({ a.1 with A := a.1.A + 1 }, detailsPush true a.2 student date)) acc

/-- JS `Math.round` on a non-negative quotient: floor of the value plus a
half. -/
def jsRound (q : ℚ) : ℤ :=
  ⌊q + 1 / 2⌋

/-- The guarded percentage of lines 1198–1199:
`totalStudentDays === 0 ? 0 : Math.round((v / totalStudentDays) * 100)`. -/
def pct (v total : Nat) : ℤ :=
  if total = 0 then 0 else jsRound ((v : ℚ) / (total : ℚ) * 100)

/-- `buildClassReport` (lines 1159–1209). -/
def buildClassReport (students : List Student) (attendance : AttMap)
    (classId : String) (dateFrom dateTo : String) : ClassReport :=
  let roster := students.filter (fun s => s.classId = classId)
  let acc1 := roster.foldl (pass1Student attendance dateFrom dateTo) ⟨⟨0, 0, 0⟩, [], []⟩
  let allDatesInRange := acc1.dates
  let acc2 := roster.foldl (pass2Student attendance allDatesInRange)
    (acc1.counts, acc1.details)
  let counts := acc2.1
  let totalStudentDays := counts.P + counts.A + counts.PR
  { rosterSize := roster.length
    uniqueDays := acc1.dates.length
    totalStudentDays := totalStudentDays
    counts := counts
    percentages :=
      ⟨pct counts.P totalStudentDays, pct counts.A totalStudentDays,
        pct counts.PR totalStudentDays⟩
    absentDetails := acc2.2.map Prod.snd }

/-! ## Spec-side definitions

`roundedShare` is written from the spec's words ("percentage per status
(rounded to nearest integer, 0 when no records exist)") to be compared with
the source's `pct`: the nearest integer to `100 * count / total` (ties
rounded up) is `⌊100 * count / total + 1/2⌋ = (200 * count + total) / (2 * total)`
in natural-number division. -/
def roundedShare (count total : Nat) : ℤ :=
  if total = 0 then 0 else (((200 * count + total) / (2 * total) : ℕ) : ℤ)

/-! ## Helper lemmas -/

theorem charListLtb_iff (l₁ l₂ : List Char) : charListLtb l₁ l₂ = true ↔ l₁ < l₂ := by
  induction l₁ generalizing l₂ with
  | nil =>
    cases l₂ with
    | nil =>
      simp only [charListLtb, Bool.false_eq_true, false_iff]
      intro h
      cases h
    | cons b bs =>
      simp only [charListLtb, true_iff]
      exact List.nil_lt_cons b bs
  | cons a as ih =>
    cases l₂ with
    | nil =>
      simp only [charListLtb, Bool.false_eq_true, false_iff]
      intro h
      cases h
    | cons b bs =>
      simp only [charListLtb]
      split_ifs with h1 h2
      · simp only [true_iff]
        exact List.Lex.rel h1
      · simp only [Bool.false_eq_true, false_iff]
        intro h
        cases h with
        | rel h' => exact h1 h'
        | cons _ => exact absurd h2 (lt_irrefl _)
      · have hab : a = b := le_antisymm (not_lt.mp h2) (not_lt.mp h1)
        subst hab
        rw [ih bs]
        constructor
        · intro h
          exact List.Lex.cons h
        · intro h
          cases h with
          | rel h' => exact absurd h' h1
          | cons h' => exact h'

theorem strLtb_iff (a b : String) : strLtb a b = true ↔ a < b := by
  rw [String.lt_iff_toList_lt]
  exact charListLtb_iff a.data b.data

theorem pct_eq (v total : Nat) : pct v total = roundedShare v total := by
  unfold pct roundedShare jsRound
  split
  · rfl
  · rename_i h
    have ht : (total : ℚ) ≠ 0 := Nat.cast_ne_zero.mpr h
    have hq : (v : ℚ) / (total : ℚ) * 100 + 1 / 2 =
        ((200 * v + total : ℕ) : ℚ) / ((2 * total : ℕ) : ℚ) := by
      push_cast
      field_simp
      ring
    rw [hq, Rat.floor_natCast_div_natCast]
    exact (Int.natCast_div _ _).symm

theorem buildClassReport_percentages (students : List Student)
    (attendance : AttMap) (classId dateFrom dateTo : String) :
    (buildClassReport students attendance classId dateFrom dateTo).percentages =
      ⟨pct (buildClassReport students attendance classId dateFrom dateTo).counts.P
         (buildClassReport students attendance classId dateFrom dateTo).totalStudentDays,
       pct (buildClassReport students attendance classId dateFrom dateTo).counts.A
         (buildClassReport students attendance classId dateFrom dateTo).totalStudentDays,
       pct (buildClassReport students attendance classId dateFrom dateTo).counts.PR
         (buildClassReport students attendance classId dateFrom dateTo).totalStudentDays⟩ :=
  rfl

theorem buildClassReport_total (students : List Student) (attendance : AttMap)
    (classId dateFrom dateTo : String) :
    (buildClassReport students attendance classId dateFrom dateTo).totalStudentDays =
      (buildClassReport students attendance classId dateFrom dateTo).counts.P +
        (buildClassReport students attendance classId dateFrom dateTo).counts.A +
        (buildClassReport students attendance classId dateFrom dateTo).counts.PR :=
  rfl

/-! ## Claim theorems -/

/-- C4: the report percentage computation returns 0 for each of P, A and PR
when the total student-day record count is 0 (the `totalStudentDays === 0`
guard makes the division unreachable), and otherwise returns each status's
share of the total rounded to the nearest integer. -/
theorem report_percentages_guarded_and_rounded (students : List Student)
    (attendance : AttMap) (classId dateFrom dateTo : String) :
    ((buildClassReport students attendance classId dateFrom dateTo).totalStudentDays = 0 →
      (buildClassReport students attendance classId dateFrom dateTo).percentages = ⟨0, 0, 0⟩) ∧
    (buildClassReport students attendance classId dateFrom dateTo).percentages =
      ⟨roundedShare (buildClassReport students attendance classId dateFrom dateTo).counts.P
         (buildClassReport students attendance classId dateFrom dateTo).totalStudentDays,
       roundedShare (buildClassReport students attendance classId dateFrom dateTo).counts.A
         (buildClassReport students attendance classId dateFrom dateTo).totalStudentDays,
       roundedShare (buildClassReport students attendance classId dateFrom dateTo).counts.PR
         (buildClassReport students attendance classId dateFrom dateTo).totalStudentDays⟩ := by
  constructor
  · intro h0
    rw [buildClassReport_percentages]
    rw [h0]
    simp [pct]
  · rw [buildClassReport_percentages, pct_eq, pct_eq, pct_eq]

/-- Witness for C4 at a report with no records. -/
theorem report_percentages_guarded_and_rounded_witness :
    (buildClassReport [⟨"s1", "a", "c1"⟩] [] "c1" "" "").totalStudentDays = 0 ∧
    (buildClassReport [⟨"s1", "a", "c1"⟩] [] "c1" "" "").percentages = ⟨0, 0, 0⟩ :=
  ⟨by decide,
    (report_percentages_guarded_and_rounded [⟨"s1", "a", "c1"⟩] [] "c1" "" "").1 (by decide)⟩

/-- C2: three students in class `c1`, student 1 marked `P` and student 2
marked `PR` on 2024-01-01, report bounded to that date: counts
`{P:1, PR:1, A:1}` (student 3 absent by derivation) and percentages
`{P:33, PR:33, A:33}`. -/
theorem report_scenario_three_students :
    (buildClassReport [⟨"s1", "a", "c1"⟩, ⟨"s2", "b", "c1"⟩, ⟨"s3", "c", "c1"⟩]
        [("s1", [("2024-01-01", "P")]), ("s2", [("2024-01-01", "PR")])]
        "c1" "2024-01-01" "2024-01-01").counts = ⟨1, 1, 1⟩ ∧
    (buildClassReport [⟨"s1", "a", "c1"⟩, ⟨"s2", "b", "c1"⟩, ⟨"s3", "c", "c1"⟩]
        [("s1", [("2024-01-01", "P")]), ("s2", [("2024-01-01", "PR")])]
        "c1" "2024-01-01" "2024-01-01").percentages = ⟨33, 33, 33⟩ := by
  constructor
  · decide
  · rw [buildClassReport_percentages, pct_eq, pct_eq, pct_eq]
    decide

/-- C8: the date filter of `buildClassReport` keeps a record exactly when its
date is ≥ `dateFrom` (when supplied) and ≤ `dateTo` (when supplied), under
lexicographic string comparison. -/
theorem dateInRange_iff (dateFrom dateTo date : String) :
    dateInRange dateFrom dateTo date = true ↔
      ((dateFrom ≠ "" → dateFrom ≤ date) ∧ (dateTo ≠ "" → date ≤ dateTo)) := by
  unfold dateInRange
  split
  · rename_i h
    rw [strLtb_iff] at h
    simp only [Bool.false_eq_true, false_iff]
    intro hc
    exact absurd (hc.1 h.1) (not_le.mpr h.2)
  · rename_i h1
    split
    · rename_i h2
      rw [strLtb_iff] at h2
      simp only [Bool.false_eq_true, false_iff]
      intro hc
      exact absurd (hc.2 h2.1) (not_le.mpr h2.2)
    · rename_i h2
      simp only [true_iff]
      constructor
      · intro hf
        by_contra hlt
        exact h1 ⟨hf, (strLtb_iff _ _).mpr (not_le.mp hlt)⟩
      · intro ht
        by_contra hlt
        exact h2 ⟨ht, (strLtb_iff _ _).mpr (not_le.mp hlt)⟩

/-- C9: when spreadsheet parsing raises, `handleExcelUpload` only surfaces a
notice: the resulting state is the old state with the parse-error toast, so
the pending upload preview is exactly what it was. -/
theorem parse_failure_preserves_preview (dir : List Klass) (uploadClass : String)
    (st : DashState) (e : Unit) :
    handleExcelUpload dir uploadClass st (.error e) = { st with toast := .parseError } ∧
    (handleExcelUpload dir uploadClass st (.error e)).uploadPreview = st.uploadPreview :=
  ⟨rfl, rfl⟩

/-- C6: header row then `["1","Abel","C1","12","0911",""]` then an all-empty
row (cells are strings: the sheet is read with `raw:false`): exactly two
Candidate Import Rows come out, the second with an empty name. -/
theorem parse_scenario_blank_row_preserved :
    (parseRows [⟨"c1", "C1", "class one"⟩] "c1"
        [some ["Roll", "Name", "Class", "Age", "Phone", "Alt"],
         some ["1", "Abel", "C1", "12", "0911", ""],
         some ["", "", "", "", "", ""]]).length = 2 ∧
    (parseRows [⟨"c1", "C1", "class one"⟩] "c1"
        [some ["Roll", "Name", "Class", "Age", "Phone", "Alt"],
         some ["1", "Abel", "C1", "12", "0911", ""],
         some ["", "", "", "", "", ""]]).map PreviewRow.name = ["Abel", ""] := by
  constructor
  · decide
  · decide

theorem foldl_max_init_le {α : Type} (f : α → Nat) (l : List α) (a : Nat) :
    a ≤ l.foldl (fun m r => max m (f r)) a := by
  induction l generalizing a with
  | nil => exact Nat.le_refl a
  | cons hd tl ih => exact Nat.le_trans (Nat.le_max_left a (f hd)) (ih (max a (f hd)))

theorem le_foldl_max {α : Type} (f : α → Nat) (l : List α) (x : α)
    (hx : x ∈ l) : ∀ a : Nat, f x ≤ l.foldl (fun m r => max m (f r)) a := by
  induction hx with
  | head tl =>
    intro a
    exact Nat.le_trans (Nat.le_max_right a (f x)) (foldl_max_init_le f tl _)
  | tail hd _ ih =>
    intro a
    exact ih _

theorem length_rawCells_le_maxColsOf (rows : List (Option (List String)))
    (r : Option (List String)) (hr : r ∈ rows) :
    (rawCells r).length ≤ maxColsOf rows :=
  le_foldl_max (fun r => (rawCells r).length) rows r hr 0

/-- C3: every row of the normalized grid produced before field mapping has
the same length, namely the maximum length over all input rows (`maxColsOf`),
so positional access to any column below that width is in bounds. -/
theorem normalizeRows_uniform_width (rows : List (Option (List String)))
    (r : List String) (hr : r ∈ normalizeRows rows (maxColsOf rows)) :
    r.length = maxColsOf rows := by
  unfold normalizeRows at hr
  obtain ⟨x, hx, rfl⟩ := List.mem_map.mp hr
  have hle : (rawCells x).length ≤ maxColsOf rows :=
    length_rawCells_le_maxColsOf rows x hx
  simp only [List.length_append, List.length_replicate]
  omega

/-- Witness for C3 on a ragged two-row sheet. -/
theorem normalizeRows_uniform_width_witness :
    ["a", ""] ∈ normalizeRows [some ["a"], some ["b", "c"]]
      (maxColsOf [some ["a"], some ["b", "c"]]) ∧
    (["a", ""] : List String).length =
      maxColsOf [some ["a"], some ["b", "c"]] :=
  ⟨by decide, normalizeRows_uniform_width [some ["a"], some ["b", "c"]] ["a", ""] (by decide)⟩

theorem dirFirstId_mem (dir : List Klass) (hdir : dir ≠ []) :
    dirFirstId dir ∈ dir.map Klass.id := by
  cases dir with
  | nil => exact absurd rfl hdir
  | cons k t => exact List.mem_cons_self _ _

/-- C7: for every class-hint string, `matchClass` returns the identifier of
some class of the (nonempty) Class Directory — substring match, else first
embedded integer as positional index, else the first class — never a missing
value. -/
theorem matchClass_mem_directory (dir : List Klass) (hdir : dir ≠ [])
    (value : String) : matchClass dir value ∈ dir.map Klass.id := by
  unfold matchClass
  split
  · exact dirFirstId_mem dir hdir
  · split
    · rename_i k hk
      exact List.mem_map.mpr ⟨k, List.mem_of_find?_eq_some hk, rfl⟩
    · split
      · rename_i ds _
        split
        · rename_i k hk
          exact List.mem_map.mpr ⟨k, List.get?_mem hk, rfl⟩
        · exact dirFirstId_mem dir hdir
      · exact dirFirstId_mem dir hdir

/-- Witness for C7 on a two-class directory and a hint with an out-of-range
index. -/
theorem matchClass_mem_directory_witness :
    ([⟨"c1", "Alpha", "x"⟩, ⟨"c2", "Beta", "y"⟩] : List Klass) ≠ [] ∧
    matchClass [⟨"c1", "Alpha", "x"⟩, ⟨"c2", "Beta", "y"⟩] "grade 99" ∈
      ([⟨"c1", "Alpha", "x"⟩, ⟨"c2", "Beta", "y"⟩] : List Klass).map Klass.id :=
  ⟨by decide,
    matchClass_mem_directory [⟨"c1", "Alpha", "x"⟩, ⟨"c2", "Beta", "y"⟩] (by decide) "grade 99"⟩

theorem foldl_rowInsert (rejects : PreviewRow → Bool)
    (created : PreviewRow → Student) (batch : List PreviewRow) :
    ∀ acc : CommitOutcome,
      batch.foldl (rowInsert rejects created) acc =
        ⟨acc.successCount + (batch.filter (fun r => !(rejects r))).length,
         acc.failedRows ++ (batch.filter rejects).map PreviewRow.rowIndex,
         acc.insertedStudents ++ (batch.filter (fun r => !(rejects r))).map created⟩ := by
  induction batch with
  | nil => intro acc; simp
  | cons r t ih =>
    intro acc
    by_cases hr : rejects r
    · simp [List.foldl_cons, rowInsert, hr, ih, List.filter_cons]
    · simp [List.foldl_cons, rowInsert, hr, ih, List.filter_cons,
        CommitOutcome.mk.injEq]
      omega

theorem processBatch_eq (rejects : PreviewRow → Bool)
    (created : PreviewRow → Student) (acc : CommitOutcome)
    (batch : List PreviewRow) :
    processBatch rejects created acc batch =
      ⟨acc.successCount + (batch.filter (fun r => !(rejects r))).length,
       acc.failedRows ++ (batch.filter rejects).map PreviewRow.rowIndex,
       acc.insertedStudents ++ (batch.filter (fun r => !(rejects r))).map created⟩ := by
  unfold processBatch
  split
  · exact foldl_rowInsert rejects created batch acc
  · rename_i hany
    have hnone : ∀ r ∈ batch, ¬ rejects r = true := by
      simpa using List.any_eq_false.mp (Bool.not_eq_true _ ▸ hany)
    have h1 : batch.filter rejects = [] :=
      List.filter_eq_nil_iff.mpr hnone
    have h2 : batch.filter (fun r => !(rejects r)) = batch :=
      List.filter_eq_self.mpr (fun r hr => by simp [hnone r hr])
    simp [h1, h2]

theorem foldl_processBatch (rejects : PreviewRow → Bool)
    (created : PreviewRow → Student) (chunks : List (List PreviewRow)) :
    ∀ acc : CommitOutcome,
      chunks.foldl (processBatch rejects created) acc =
        ⟨acc.successCount + (chunks.flatten.filter (fun r => !(rejects r))).length,
         acc.failedRows ++ (chunks.flatten.filter rejects).map PreviewRow.rowIndex,
         acc.insertedStudents ++
           (chunks.flatten.filter (fun r => !(rejects r))).map created⟩ := by
  induction chunks with
  | nil => intro acc; simp
  | cons c t ih =>
    intro acc
    simp only [List.foldl_cons, processBatch_eq, ih, List.flatten_cons,
      List.filter_append, List.map_append, List.length_append,
      List.append_assoc, CommitOutcome.mk.injEq]
    refine ⟨by omega, ?_⟩
    simp

theorem join_chunksOf {α : Type} (n : Nat) (hn : n ≠ 0) (l : List α) :
    (chunksOf n l).flatten = l := by
  match l with
  | [] => simp [chunksOf]
  | a :: t =>
    rw [chunksOf]
    simp only [hn, dite_false]
    rw [List.flatten_cons, join_chunksOf n hn ((a :: t).drop n)]
    exact List.take_append_drop n (a :: t)
termination_by l.length
decreasing_by
  simp only [List.length_drop]
  exact Nat.sub_lt (by simp) (Nat.pos_of_ne_zero hn)

theorem commitPipeline_eq (rejects : PreviewRow → Bool)
    (created : PreviewRow → Student) (rows : List PreviewRow) :
    commitPipeline rejects created rows =
      ⟨(rows.filter (fun r => !(rejects r))).length,
       (rows.filter rejects).map PreviewRow.rowIndex,
       (rows.filter (fun r => !(rejects r))).map created⟩ := by
  unfold commitPipeline
  rw [foldl_processBatch, join_chunksOf 50 (by decide) rows]
  simp

/-- C1: for any candidate rows and any backend-rejected subset, after the
chunked pipeline (which falls back to per-row inserts and never aborts on a
chunk or row failure) the success count plus the number of failed entries is
the number of rows, the failed list carries exactly the `__rowIndex`es of the
rejected rows in order, and every accepted row yields its created student. -/
theorem commitPipeline_partition (rejects : PreviewRow → Bool)
    (created : PreviewRow → Student) (rows : List PreviewRow) :
    (commitPipeline rejects created rows).successCount +
        (commitPipeline rejects created rows).failedRows.length = rows.length ∧
    (commitPipeline rejects created rows).failedRows =
      (rows.filter rejects).map PreviewRow.rowIndex ∧
    (commitPipeline rejects created rows).insertedStudents =
      (rows.filter (fun r => !(rejects r))).map created := by
  rw [commitPipeline_eq]
  refine ⟨?_, rfl, rfl⟩
  simp only [List.length_map]
  have h : rows.length =
      (rows.filter rejects).length + (rows.filter (fun x => !(rejects x))).length :=
    List.length_eq_length_filter_add rejects
  omega

/-- C5: after `commitUpload`, when at least one row succeeded the created
students are appended to the roster; when zero rows failed the pending
preview is cleared; when at least one row failed the preview is untouched and
the success/failure counts are surfaced in the notice. -/
theorem commitUpload_state_effects (rejects : PreviewRow → Bool)
    (created : PreviewRow → Student) (st : DashState) :
    (0 < (commitPipeline rejects created st.uploadPreview).successCount →
      (commitUpload rejects created st).students =
        st.students ++ (commitPipeline rejects created st.uploadPreview).insertedStudents) ∧
    ((commitPipeline rejects created st.uploadPreview).failedRows.length = 0 →
      (commitUpload rejects created st).uploadPreview = []) ∧
    (0 < (commitPipeline rejects created st.uploadPreview).failedRows.length →
      (commitUpload rejects created st).uploadPreview = st.uploadPreview ∧
      (commitUpload rejects created st).toast =
        .uploadedPartial (commitPipeline rejects created st.uploadPreview).successCount
          st.uploadPreview.length
          (commitPipeline rejects created st.uploadPreview).failedRows.length) := by
  have hpipe := commitPipeline_eq rejects created st.uploadPreview
  have hlen : (commitPipeline rejects created st.uploadPreview).insertedStudents.length =
      (commitPipeline rejects created st.uploadPreview).successCount := by
    rw [hpipe]
    simp
  have hmerge : 0 < (commitPipeline rejects created st.uploadPreview).successCount →
      mergedRoster rejects created st =
        st.students ++ (commitPipeline rejects created st.uploadPreview).insertedStudents := by
    intro hs
    unfold mergedRoster
    rw [if_pos (by omega)]
  unfold commitUpload
  by_cases hempty : st.uploadPreview.length = 0
  · have hnil : st.uploadPreview = [] := List.length_eq_zero.mp hempty
    rw [if_pos hempty]
    refine ⟨?_, ?_, ?_⟩
    · intro hs
      exfalso
      rw [hpipe, hnil] at hs
      simp at hs
    · intro _
      exact hnil
    · intro hf
      exfalso
      rw [hpipe, hnil] at hf
      simp at hf
  · rw [if_neg hempty]
    by_cases hfail :
        (commitPipeline rejects created st.uploadPreview).failedRows.length = 0
    · rw [if_neg (by omega)]
      refine ⟨?_, fun _ => rfl, ?_⟩
      · intro hs
        exact hmerge hs
      · intro hf
        exact absurd hfail (by omega)
    · rw [if_pos hfail]
      refine ⟨?_, ?_, ?_⟩
      · intro hs
        exact hmerge hs
      · intro hf
        exact absurd hf hfail
      · intro _
        exact ⟨rfl, rfl⟩

/-- Witness for C5: a two-row preview whose second row the backend rejects:
the preview is retained and the counts surfaced; and a preview whose rows all
succeed is cleared. -/
theorem commitUpload_state_effects_witness :
    (0 < (commitPipeline (fun r => r.rowIndex == 3)
        (fun r => ⟨r.name, r.name, r.classId⟩)
        [⟨2, 0, "1", "Abel", "c1", "", "", ""⟩, ⟨3, 1, "2", "Betty", "c1", "", "", ""⟩]).failedRows.length) ∧
    (commitUpload (fun r => r.rowIndex == 3) (fun r => ⟨r.name, r.name, r.classId⟩)
        ⟨[], [⟨2, 0, "1", "Abel", "c1", "", "", ""⟩, ⟨3, 1, "2", "Betty", "c1", "", "", ""⟩],
          "upload", .none⟩).uploadPreview =
      [⟨2, 0, "1", "Abel", "c1", "", "", ""⟩, ⟨3, 1, "2", "Betty", "c1", "", "", ""⟩] := by
  constructor
  · rw [commitPipeline_eq]
    decide
  · exact ((commitUpload_state_effects (fun r => r.rowIndex == 3)
      (fun r => ⟨r.name, r.name, r.classId⟩)
      ⟨[], [⟨2, 0, "1", "Abel", "c1", "", "", ""⟩, ⟨3, 1, "2", "Betty", "c1", "", "", ""⟩],
        "upload", .none⟩).2.2 (by rw [commitPipeline_eq]; decide)).1


theorem alistGet_set {β : Type} (l : List (String × β)) (k : String) (v : β)
    (k' : String) :
    alistGet (alistSet l k v) k' = if k' = k then some v else alistGet l k' := by
  induction l with
  | nil =>
    by_cases h : k' = k
    · subst h
      simp [alistSet, alistGet]
    · simp only [alistSet, alistGet]
      rw [if_neg (fun hh : k = k' => h hh.symm), if_neg h]
  | cons p t ih =>
    obtain ⟨k1, v1⟩ := p
    by_cases h1 : k1 = k
    · subst h1
      by_cases h : k' = k1
      · subst h
        simp [alistSet, alistGet]
      · simp only [alistSet, if_pos rfl, alistGet]
        rw [if_neg (fun hh : k1 = k' => h hh.symm), if_neg h,
          if_neg (fun hh : k1 = k' => h hh.symm)]
    · simp only [alistSet, if_neg h1, alistGet]
      by_cases h2 : k1 = k'
      · subst h2
        rw [if_pos rfl, if_neg (fun hh : k1 = k => h1 hh), if_pos rfl]
      · rw [if_neg h2, if_neg h2, ih]

theorem alistGet_eq_none_of_not_mem {β : Type} (l : List (String × β))
    (k : String) (h : k ∉ alistKeys l) : alistGet l k = none := by
  induction l with
  | nil => rfl
  | cons p t ih =>
    obtain ⟨k1, v1⟩ := p
    simp only [alistKeys, List.map_cons, List.mem_cons, not_or] at h
    simp only [alistGet]
    rw [if_neg (fun hh : k1 = k => h.1 hh.symm)]
    exact ih h.2

theorem alistSet_of_get_none {β : Type} (l : List (String × β)) (k : String)
    (v : β) (h : alistGet l k = none) : alistSet l k v = l ++ [(k, v)] := by
  induction l with
  | nil => rfl
  | cons p t ih =>
    obtain ⟨k1, v1⟩ := p
    simp only [alistGet] at h
    by_cases h1 : k1 = k
    · rw [if_pos h1] at h
      exact absurd h (by simp)
    · rw [if_neg h1] at h
      simp only [alistSet, if_neg h1, List.cons_append, List.cons.injEq, true_and]
      exact ih h

theorem alistDel_append_of_get_none {β : Type} (l : List (String × β))
    (k : String) (v : β) (h : alistGet l k = none) :
    alistDel (l ++ [(k, v)]) k = l := by
  induction l with
  | nil => simp [alistDel]
  | cons p t ih =>
    obtain ⟨k1, v1⟩ := p
    simp only [alistGet] at h
    by_cases h1 : k1 = k
    · rw [if_pos h1] at h
      exact absurd h (by simp)
    · rw [if_neg h1] at h
      simp only [List.cons_append, alistDel, if_neg h1, List.cons.injEq, true_and]
      exact ih h

theorem alistSet_alistSet {β : Type} (l : List (String × β)) (k : String)
    (v w : β) : alistSet (alistSet l k v) k w = alistSet l k w := by
  induction l with
  | nil => simp [alistSet]
  | cons p t ih =>
    obtain ⟨k1, v1⟩ := p
    by_cases h1 : k1 = k
    · simp [alistSet, h1]
    · simp [alistSet, h1, ih]

theorem alistGet_del_ne {β : Type} (l : List (String × β)) (k k' : String)
    (h : k' ≠ k) : alistGet (alistDel l k) k' = alistGet l k' := by
  induction l with
  | nil => rfl
  | cons p t ih =>
    obtain ⟨k1, v1⟩ := p
    by_cases h1 : k1 = k
    · subst h1
      have hdel : alistDel ((k1, v1) :: t) k1 = t := by simp [alistDel]
      rw [hdel]
      simp only [alistGet]
      rw [if_neg (fun hh : k1 = k' => h hh.symm)]
    · simp only [alistDel, if_neg h1, alistGet]
      by_cases h2 : k1 = k'
      · rw [if_pos h2, if_pos h2]
      · rw [if_neg h2, if_neg h2, ih]

theorem alistGet_del_self {β : Type} (l : List (String × β)) (k : String)
    (h : (alistKeys l).Nodup) : alistGet (alistDel l k) k = none := by
  induction l with
  | nil => rfl
  | cons p t ih =>
    obtain ⟨k1, v1⟩ := p
    simp only [alistKeys, List.map_cons, List.nodup_cons] at h
    by_cases h1 : k1 = k
    · subst h1
      have hdel : alistDel ((k1, v1) :: t) k1 = t := by simp [alistDel]
      rw [hdel]
      exact alistGet_eq_none_of_not_mem t k1 h.1
    · simp only [alistDel, if_neg h1, alistGet]
      exact ih h.2

theorem mem_alistKeys_set {β : Type} (l : List (String × β)) (k : String)
    (v : β) (x : String) (hx : x ∈ alistKeys (alistSet l k v)) :
    x ∈ alistKeys l ∨ x = k := by
  induction l with
  | nil =>
    simp only [alistSet, alistKeys, List.map_cons, List.map_nil,
      List.mem_singleton] at hx
    exact Or.inr hx
  | cons p t ih =>
    obtain ⟨k1, v1⟩ := p
    by_cases h1 : k1 = k
    · subst h1
      have hset : alistSet ((k1, v1) :: t) k1 v = (k1, v) :: t := by
        simp [alistSet]
      rw [hset] at hx
      simp only [alistKeys, List.map_cons, List.mem_cons] at hx
      cases hx with
      | inl hh => exact Or.inr hh
      | inr hh => exact Or.inl (List.mem_cons_of_mem _ hh)
    · simp only [alistSet, if_neg h1, alistKeys, List.map_cons,
        List.mem_cons] at hx
      cases hx with
      | inl hh => exact Or.inl (hh ▸ List.mem_cons_self _ _)
      | inr hh =>
        cases ih hh with
        | inl hh' => exact Or.inl (List.mem_cons_of_mem _ hh')
        | inr hh' => exact Or.inr hh'

theorem alistKeys_set_nodup {β : Type} (l : List (String × β)) (k : String)
    (v : β) (h : (alistKeys l).Nodup) : (alistKeys (alistSet l k v)).Nodup := by
  induction l with
  | nil => simp [alistSet, alistKeys]
  | cons p t ih =>
    obtain ⟨k1, v1⟩ := p
    simp only [alistKeys, List.map_cons, List.nodup_cons] at h
    by_cases h1 : k1 = k
    · subst h1
      have hset : alistSet ((k1, v1) :: t) k1 v = (k1, v) :: t := by
        simp [alistSet]
      rw [hset]
      simp only [alistKeys, List.map_cons, List.nodup_cons]
      exact h
    · simp only [alistSet, if_neg h1, alistKeys, List.map_cons, List.nodup_cons]
      refine ⟨?_, ih h.2⟩
      intro hmem
      cases mem_alistKeys_set t k v k1 hmem with
      | inl hh => exact h.1 hh
      | inr hh => exact h1 hh

/-- C10: on a well-formed attendance map (duplicate-free student keys, as JS
objects guarantee) with no stored status for `(s, d)`, an
`updateAttendanceLocal` upsert followed by a `removeAttendanceLocal` of the
same pair restores the original map extensionally — every `(s', d')` lookup
agrees, including the case where the cleared date was the student's only
entry and the student key itself is deleted. -/
theorem update_then_remove_roundtrip (m : AttMap) (s d status s' d' : String)
    (hnd : (alistKeys m).Nodup) (habs : lookupStatus m s d = none) :
    lookupStatus (removeAttendanceLocal (updateAttendanceLocal m s d status) s d) s' d' =
      lookupStatus m s' d' := by
  have habs' : alistGet ((alistGet m s).getD []) d = none := habs
  set hist := (alistGet m s).getD [] with hhist
  have hupd : updateAttendanceLocal m s d status =
      alistSet m s (alistSet hist d status) := rfl
  have hset : alistSet hist d status = hist ++ [(d, status)] :=
    alistSet_of_get_none hist d status habs'
  have hget1 : alistGet (alistSet m s (alistSet hist d status)) s =
      some (alistSet hist d status) := by
    rw [alistGet_set]
    simp
  have hdel : alistDel (alistSet hist d status) d = hist := by
    rw [hset]
    exact alistDel_append_of_get_none hist d status habs'
  rw [hupd]
  simp only [removeAttendanceLocal, hget1, hdel]
  by_cases hne : hist.length ≠ 0
  · rw [if_pos hne, alistSet_alistSet]
    have hms : alistGet m s = some hist := by
      cases hg : alistGet m s with
      | none =>
        exfalso
        rw [hg] at hhist
        simp only [Option.getD_none] at hhist
        exact hne (by rw [hhist]; rfl)
      | some h0 =>
        rw [hg] at hhist
        simp only [Option.getD_some] at hhist
        rw [hhist]
    unfold lookupStatus
    rw [alistGet_set]
    by_cases hs' : s' = s
    · subst hs'
      rw [if_pos rfl, hms]
    · rw [if_neg hs']
  · rw [if_neg hne]
    have hnil : hist = [] := List.length_eq_zero.mp (by omega)
    cases hg : alistGet m s with
    | none =>
      have hsetm : alistSet m s (alistSet hist d status) =
          m ++ [(s, alistSet hist d status)] :=
        alistSet_of_get_none m s _ hg
      rw [hsetm, alistDel_append_of_get_none m s _ hg]
    | some h0 =>
      have h0nil : h0 = [] := by
        rw [hg] at hhist
        simp only [Option.getD_some] at hhist
        rw [← hhist, hnil]
      unfold lookupStatus
      by_cases hs' : s' = s
      · rw [hs']
        rw [alistGet_del_self _ _ (alistKeys_set_nodup m s _ hnd), hg, h0nil]
        rfl
      · rw [alistGet_del_ne _ s s' hs', alistGet_set, if_neg hs']

/-- Witness for C10 on a concrete map: student `"a"` has one record, the pair
`("b", "2024-01-02")` is absent, and the lookup at `("a", "2024-01-01")`
agrees before and after the round trip. -/
theorem update_then_remove_roundtrip_witness :
    (alistKeys ([("a", [("2024-01-01", "P")])] : AttMap)).Nodup ∧
    lookupStatus [("a", [("2024-01-01", "P")])] "b" "2024-01-02" = none ∧
    lookupStatus
        (removeAttendanceLocal
          (updateAttendanceLocal [("a", [("2024-01-01", "P")])] "b" "2024-01-02" "PR")
          "b" "2024-01-02") "a" "2024-01-01" =
      lookupStatus [("a", [("2024-01-01", "P")])] "a" "2024-01-01" :=
  ⟨by decide, by decide,
    update_then_remove_roundtrip [("a", [("2024-01-01", "P")])] "b" "2024-01-02" "PR"
      "a" "2024-01-01" (by decide) (by decide)⟩

end Senbet
